import Mathlib

/-!
Shallow embedding of the organizer pool allocator implemented by
`GoogleCalendarService` in `src/example-code.ts`.

The allocator keeps all of its state in a durable key-value cache store:
one pool entry per category (the source uses the boolean `isPrakerja` as
the category, with cache keys `google-calendar-prakerja` and
`google-calendar-non-prakerja`) and one block entry per organizer
(key `google-calendar-blocked-organizer:<organizer>`).

The embedding models the cache store as an explicit `CacheState` record,
timestamps (`Date.getTime()` milliseconds) as `Int`, and fallible
operations (JSON deserialization can throw) as `Except Unit`.
A nullable JS string is `Option String`; JS truthiness of such a value is
`optTruthy`.  A raw cached byte string is abstracted by the outcome of
`JSON.parse` on it (`RawValue`): either it deserializes to a pool value or
the parse throws.
-/

/-- The organization domain hardcoded in the source
(the check `attendee.email.includes('sempurna.com')`). -/
def rskDomain : String := "sempurna.com"

/-- Deserialized shape of a pool cache entry: the current organizer of the
category (nullable) and the accumulated list of unique external attendee
emails (`GoogleCalendarCacheValueDto`). -/
structure CacheValue where
  organizer : Option String
  uniqueAttendees : List String
deriving DecidableEq, Repr

/-- A raw cached byte string, abstracted by the outcome of `JSON.parse` on
it: `wellFormed v` when it parses to the pool value `v`, `malformed` when
`JSON.parse` throws. -/
inductive RawValue where
  | wellFormed (v : CacheValue)
  | malformed
deriving DecidableEq, Repr

/-- The durable cache store, restricted to the keys the allocator touches:
the two per-category pool entries and the per-organizer block entries
(which store the `blockedAt` timestamp in milliseconds). -/
structure CacheState where
  poolPrakerja : Option RawValue
  poolNonPrakerja : Option RawValue
  blocked : String → Option Int

/-- Module configuration read from environment variables in the source
constructor: the two candidate organizer lists and the external attendee
limit (`GCAL_EXT_ATTENDEE_LIMIT`, default 2000). -/
structure Config where
  prakerjaOrganizers : List String
  nonPrakerjaOrganizers : List String
  externalAttendeesLimit : Nat

/-- Pool entry of a category; the category is the boolean `isPrakerja`
exactly as in the source. -/
def poolOf (st : CacheState) : Bool → Option RawValue
  | true => st.poolPrakerja
  | false => st.poolNonPrakerja

/-- Write (or delete, with `none`) the pool entry of a category. -/
def setPool (st : CacheState) (c : Bool) (v : Option RawValue) : CacheState :=
  match c with
  | true => { st with poolPrakerja := v }
  | false => { st with poolNonPrakerja := v }

/-- Write the block entry of key `k` with timestamp `t`. -/
def setBlocked (st : CacheState) (k : String) (t : Int) : CacheState :=
  { st with blocked := fun k' => if k' = k then some t else st.blocked k' }

/-- Delete the block entry of key `k`. -/
def deleteBlocked (st : CacheState) (k : String) : CacheState :=
  { st with blocked := fun k' => if k' = k then none else st.blocked k' }

/-- JS truthiness of a nullable string: null, undefined and the empty
string are falsy. -/
def optTruthy : Option String → Bool
  | none => false
  | some s => !s.isEmpty

/-- Suffix of the block cache key built by the template literal
`` `${this.gcalBlockKey}:${organizer}` ``; a missing organizer is rendered
by JS as the text "undefined". -/
def orgKey : Option String → String
  | some s => s
  | none => "undefined"

/-- Embedding of `String.prototype.includes`: decide whether `pat` occurs
as a contiguous character substring of the second list. -/
def hasSubstr (pat : List Char) : List Char → Bool
  | [] => pat.isEmpty
  | a :: t => pat.isPrefixOf (a :: t) || hasSubstr pat t

/-- The source filter `!attendee.email.includes('sempurna.com')`: an email
counts as external when it does not contain the organization domain as a
substring anywhere. -/
def isExternalEmail (e : String) : Bool := !(hasSubstr rskDomain.data e.data)

/-- Claim-side predicate (not from the source): the email really belongs
to the organization domain, i.e. it ends with the charater `@` followed by
the domain. -/
def emailHasDomain (e dom : String) : Bool :=
  ('@' :: dom.data).isSuffixOf e.data

/-- The source `deserializeCacheValue` is a bare `JSON.parse`.  An absent
entry (`null`) parses to `null` (treated as no state by every caller); a
malformed byte string makes `JSON.parse` throw, which propagates. -/
def deserializeCacheValue : Option RawValue → Except Unit (Option CacheValue)
  | none => Except.ok none
  | some (RawValue.wellFormed v) => Except.ok (some v)
  | some RawValue.malformed => Except.error ()

/-- The source `fetchCurrentOrganizer(isPrakerja)`: read the pool entry,
return undefined when absent, otherwise deserialize it (which may throw). -/
def fetchCurrentOrganizer (st : CacheState) (isPrakerja : Bool) :
    Except Unit (Option CacheValue) :=
  match poolOf st isPrakerja with
  | none => Except.ok none
  | some (RawValue.wellFormed v) => Except.ok (some v)
  | some RawValue.malformed => Except.error ()

/-- The pool value a category would deserialize to, with both an absent
and a malformed entry mapped to `none` (used to state lemmas; the
executable read path is `fetchCurrentOrganizer`). -/
def parsedRaw : Option RawValue → Option CacheValue
  | some (RawValue.wellFormed v) => some v
  | _ => none

/-- Parsed pool entry of a category, see `parsedRaw`. -/
def parsedPool (st : CacheState) (c : Bool) : Option CacheValue :=
  parsedRaw (poolOf st c)

/-- Both pool entries deserialize without throwing. -/
def poolsWellFormed (st : CacheState) : Prop :=
  poolOf st true ≠ some RawValue.malformed ∧ poolOf st false ≠ some RawValue.malformed

instance (st : CacheState) : Decidable (poolsWellFormed st) :=
  inferInstanceAs (Decidable (poolOf st true ≠ some RawValue.malformed ∧
    poolOf st false ≠ some RawValue.malformed))

/-- Adding one element to a JS `Set` represented as its insertion-ordered
duplicate-free element list. -/
def insertUnique (l : List String) (e : String) : List String :=
  if l.contains e then l else l ++ [e]

/-- `new Set(stored)`: deduplicate keeping first occurrences in order. -/
def dedupList (l : List String) : List String := l.foldl insertUnique []

/-- The merge branch of `cacheOrganizerAndAttendee`: seed a `Set` with the
stored list, add every external attendee email, read the result back as an
array. -/
def mergeExternal (stored : List String) (atts : List String) : List String :=
  atts.foldl (fun acc a => if isExternalEmail a then insertUnique acc a else acc)
    (dedupList stored)

/-- The merge condition of `cacheOrganizerAndAttendee`:
`organizer && organizer == organizerReq && uniqueAttendees.length < this.externalAttendeesLimit`. -/
def mergeGuard (cfg : Config) (d : CacheValue) (organizerReq : Option String) : Bool :=
  optTruthy d.organizer && d.organizer == organizerReq
    && decide (d.uniqueAttendees.length < cfg.externalAttendeesLimit)

/-- The source `cacheOrganizerAndAttendee` (the recordAssignment operation
of the spec): read and deserialize the pool entry of the category; when a
value is present, merge the external attendee emails into it only under
`mergeGuard`, otherwise persist it unchanged; when no value is present,
store the requested organizer with the external subset of the batch (the
fresh branch pushes without deduplication).  Returns the organizer
actually stored. -/
def cacheOrganizerAndAttendee (cfg : Config) (st : CacheState) (attendees : List String)
    (organizerReq : Option String) (isPrakerja : Bool) :
    Except Unit (CacheState × Option String) := do
  let deserializedData ← deserializeCacheValue (poolOf st isPrakerja)
  match deserializedData with
  | some d =>
    let uniqueAttendees :=
      if mergeGuard cfg d organizerReq then mergeExternal d.uniqueAttendees attendees
      else d.uniqueAttendees
    let st' := setPool st isPrakerja (some (RawValue.wellFormed ⟨d.organizer, uniqueAttendees⟩))
    Except.ok (st', d.organizer)
  | none =>
    let st' := setPool st isPrakerja
      (some (RawValue.wellFormed ⟨organizerReq, attendees.filter isExternalEmail⟩))
    Except.ok (st', organizerReq)

/-- The source `isBlockedTimeFinished`: the block is over when strictly
more than 24 hours (in milliseconds) elapsed since the stored timestamp. -/
def isBlockedTimeFinished (now blockedAt : Int) : Bool :=
  decide (now - blockedAt > 24 * 60 * 60 * 1000)

/-- The source `blockOrganizer` (the suspend operation of the spec): write
the block entry with the current timestamp, then delete the pool entry of
the prakerja category if its current organizer is the blocked one, `else
if` that fails try the same for the non-prakerja category. -/
def blockOrganizer (now : Int) (st : CacheState) (organizer : Option String) :
    Except Unit CacheState := do
  let st0 := setBlocked st (orgKey organizer) now
  let cp ← fetchCurrentOrganizer st0 true
  let currentOrganizerPrakerja := cp.bind CacheValue.organizer
  let cnp ← fetchCurrentOrganizer st0 false
  let currentOrganizerNonPrakerja := cnp.bind CacheValue.organizer
  if optTruthy currentOrganizerPrakerja && organizer == currentOrganizerPrakerja then
    Except.ok (setPool st0 true none)
  else if optTruthy currentOrganizerNonPrakerja && organizer == currentOrganizerNonPrakerja then
    Except.ok (setPool st0 false none)
  else
    Except.ok st0

/-- The per-category quota test of `isOrganizerAvailable`: a deserialized
pool value is present, its organizer is (strictly) equal to the tested
organizer, and its attendee count has reached the limit. -/
def shouldBlockCur (cfg : Config) (cur : Option CacheValue) (organizer : Option String) : Bool :=
  match cur with
  | some v =>
    v.organizer == organizer && decide (cfg.externalAttendeesLimit ≤ v.uniqueAttendees.length)
  | none => false

/-- Quota exhaustion of an organizer in a category, stated on the state
directly (equal by definition to what `isOrganizerAvailable` computes from
its two reads when the pools are well formed). -/
def quotaExhausted (cfg : Config) (st : CacheState) (c : Bool) (organizer : Option String) : Bool :=
  shouldBlockCur cfg (parsedPool st c) organizer

/-- The source `isOrganizerAvailable` (the isAvailable operation of the
spec): read both pool entries; if the organizer is quota-exhausted in
either category, call `blockOrganizer` once for each category that did
not itself trigger, and return false; otherwise consult the block entry:
absent means available, present means available exactly when the stored
timestamp is older than 24 hours, in which case the entry is deleted by
hand (the source comments that redis TTL cannot be relied on). -/
def isOrganizerAvailable (cfg : Config) (now : Int) (st : CacheState)
    (organizer : Option String) : Except Unit (CacheState × Bool) := do
  let cp ← fetchCurrentOrganizer st true
  let cnp ← fetchCurrentOrganizer st false
  let shouldBlockPrakerja := shouldBlockCur cfg cp organizer
  let shouldBlockNonPrakerja := shouldBlockCur cfg cnp organizer
  if shouldBlockPrakerja || shouldBlockNonPrakerja then
    let st1 ← if shouldBlockPrakerja then Except.ok st else blockOrganizer now st organizer
    let st2 ← if shouldBlockNonPrakerja then Except.ok st1 else blockOrganizer now st1 organizer
    Except.ok (st2, false)
  else
    match st.blocked (orgKey organizer) with
    | some t =>
      if isBlockedTimeFinished now t then Except.ok (deleteBlocked st (orgKey organizer), true)
      else Except.ok (st, false)
    | none => Except.ok (st, true)

/-- The candidate list configured for a category. -/
def candidatesFor (cfg : Config) (isPrakerja : Bool) : List String :=
  if isPrakerja then cfg.prakerjaOrganizers else cfg.nonPrakerjaOrganizers

/-- The `for await` loop of `fetchAvailableOrganizers`: check every
candidate in declared order, threading the cache state, and collect the
available ones in order. -/
def availLoop (cfg : Config) (now : Int) :
    CacheState → List String → Except Unit (CacheState × List String)
  | st, [] => Except.ok (st, [])
  | st, org :: rest => do
    let (st1, isAvail) ← isOrganizerAvailable cfg now st (some org)
    let (st2, acc) ← availLoop cfg now st1 rest
    Except.ok (st2, if isAvail then org :: acc else acc)

/-- The source `fetchAvailableOrganizers`: when no explicit list is given,
use the configured list of the category, then run the availability loop. -/
def fetchAvailableOrganizers (cfg : Config) (now : Int) (st : CacheState)
    (isPrakerja : Bool) (organizers : Option (List String)) :
    Except Unit (CacheState × List String) :=
  let orgs := match organizers with
    | some l => l
    | none => candidatesFor cfg isPrakerja
  availLoop cfg now st orgs

/-- The organizer-selection portion of the source `createEvent` (the
selectOrganizer operation of the spec, lines 164-178): read the cached
current organizer, check its availability, and when no organizer was
passed in, use the cached one when available, otherwise take the first
entry of `fetchAvailableOrganizers`; when that list is empty the `else`
branch of the source is empty and the organizer stays null. -/
def selectOrganizerForCreate (cfg : Config) (now : Int) (st : CacheState)
    (organizerParam : Option String) (isPrakerja : Bool) :
    Except Unit (CacheState × Option String) := do
  let cur ← fetchCurrentOrganizer st isPrakerja
  let currentOrganizerCached := cur.bind CacheValue.organizer
  let (st1, isAvail) ← isOrganizerAvailable cfg now st currentOrganizerCached
  if optTruthy organizerParam then
    Except.ok (st1, organizerParam)
  else
    if optTruthy currentOrganizerCached && isAvail then
      Except.ok (st1, currentOrganizerCached)
    else
      let (st2, organizers) ← fetchAvailableOrganizers cfg now st1 isPrakerja none
      match organizers.head? with
      | some o => Except.ok (st2, if o.isEmpty then organizerParam else some o)
      | none => Except.ok (st2, organizerParam)

/-- Boolean an `isOrganizerAvailable` run decides from a given state
(false when the run throws); used to state which candidate is the first
available one. -/
def availIn (cfg : Config) (now : Int) (st : CacheState) (organizer : Option String) : Bool :=
  match isOrganizerAvailable cfg now st organizer with
  | Except.ok (_, b) => b
  | Except.error _ => false

/-- The cache state before anything was ever stored. -/
def emptyState : CacheState := ⟨none, none, fun _ => none⟩

/-- Run a sequence of recordAssignment calls; each list element carries
the attendee email batch, the requested organizer and the category. -/
def runAll (cfg : Config) :
    CacheState → List (List String × Option String × Bool) → Except Unit CacheState
  | st, [] => Except.ok st
  | st, (atts, req, c) :: rest => do
    let (st', _) ← cacheOrganizerAndAttendee cfg st atts req c
    runAll cfg st' rest

/-! Basic state lemmas. -/

theorem poolOf_setBlocked (st : CacheState) (k : String) (t : Int) (c : Bool) :
    poolOf (setBlocked st k t) c = poolOf st c := by cases c <;> rfl

theorem poolOf_deleteBlocked (st : CacheState) (k : String) (c : Bool) :
    poolOf (deleteBlocked st k) c = poolOf st c := by cases c <;> rfl

theorem poolOf_setPool (st : CacheState) (c : Bool) (v : Option RawValue) (c' : Bool) :
    poolOf (setPool st c v) c' = if c' = c then v else poolOf st c' := by
  cases c <;> cases c' <;> simp [setPool, poolOf]

theorem blocked_setPool (st : CacheState) (c : Bool) (v : Option RawValue) :
    (setPool st c v).blocked = st.blocked := by cases c <;> rfl

theorem fetchCurrentOrganizer_ok (st : CacheState) (c : Bool) (h : poolsWellFormed st) :
    fetchCurrentOrganizer st c = Except.ok (parsedPool st c) := by
  have hm : poolOf st c ≠ some RawValue.malformed := by
    cases c
    · exact h.2
    · exact h.1
  unfold fetchCurrentOrganizer parsedPool parsedRaw
  cases hp : poolOf st c with
  | none => rfl
  | some raw =>
    cases raw with
    | wellFormed v => rfl
    | malformed => exact absurd hp hm

/-! Membership lemmas for the JS Set simulation. -/

theorem mem_insertUnique_iff {l : List String} {a e : String} :
    e ∈ insertUnique l a ↔ e ∈ l ∨ e = a := by
  unfold insertUnique
  split
  · rename_i hc
    have ha : a ∈ l := List.elem_iff.mp hc
    constructor
    · exact Or.inl
    · rintro (h | rfl)
      · exact h
      · exact ha
  · simp [List.mem_append]

theorem mem_foldl_insertUnique {e : String} :
    ∀ (l acc : List String), e ∈ l.foldl insertUnique acc ↔ e ∈ acc ∨ e ∈ l
  | [], acc => by simp
  | a :: t, acc => by
    rw [List.foldl_cons, mem_foldl_insertUnique t, mem_insertUnique_iff]
    simp [List.mem_cons]
    tauto

theorem mem_extFold {e : String} :
    ∀ (atts acc : List String),
      e ∈ atts.foldl (fun acc a => if isExternalEmail a then insertUnique acc a else acc) acc ↔
        e ∈ acc ∨ (e ∈ atts ∧ isExternalEmail e = true)
  | [], acc => by simp
  | a :: t, acc => by
    rw [List.foldl_cons, mem_extFold t]
    cases ha : isExternalEmail a
    · simp only [ha, Bool.false_eq_true, if_false, List.mem_cons]
      constructor
      · rintro (h | ⟨ht, hx⟩)
        · exact Or.inl h
        · exact Or.inr ⟨Or.inr ht, hx⟩
      · rintro (h | ⟨rfl | ht, hx⟩)
        · exact Or.inl h
        · rw [ha] at hx; cases hx
        · exact Or.inr ⟨ht, hx⟩
    · simp only [ha, if_true, mem_insertUnique_iff, List.mem_cons]
      constructor
      · rintro ((h | rfl) | ⟨ht, hx⟩)
        · exact Or.inl h
        · exact Or.inr ⟨Or.inl rfl, ha⟩
        · exact Or.inr ⟨Or.inr ht, hx⟩
      · rintro (h | ⟨rfl | ht, hx⟩)
        · exact Or.inl (Or.inl h)
        · exact Or.inl (Or.inr rfl)
        · exact Or.inr ⟨ht, hx⟩

theorem mem_mergeExternal_iff {stored atts : List String} {e : String} :
    e ∈ mergeExternal stored atts ↔ e ∈ stored ∨ (e ∈ atts ∧ isExternalEmail e = true) := by
  unfold mergeExternal dedupList
  rw [mem_extFold, mem_foldl_insertUnique]
  simp

/-! Claim C1. -/

/-- Concrete config used by the C1 input. -/
def c1Cfg : Config := ⟨[], [], 2000⟩

/-- Concrete cache state for C1: the prakerja pool currently stores
organizer a@x with one accumulated attendee. -/
def c1State : CacheState :=
  ⟨some (RawValue.wellFormed ⟨some "a@x", ["e1@y"]⟩), none, fun _ => none⟩

/-- C1 counterexample: calling recordAssignment with a requested organizer
b@x that differs from the stored organizer a@x does NOT replace the state:
the persisted pool keeps organizer a@x and the old attendee set, and the
returned organizer is the stored a@x, not the requested b@x as the claim
states. -/
theorem record_mismatch_counterexample :
    (cacheOrganizerAndAttendee c1Cfg c1State ["e2@z"] (some "b@x") true).toOption.map
        (fun r => (poolOf r.1 true, r.2)) =
      some (some (RawValue.wellFormed ⟨some "a@x", ["e1@y"]⟩), some "a@x") ∧
    (cacheOrganizerAndAttendee c1Cfg c1State ["e2@z"] (some "b@x") true).toOption.map
        (fun r => r.2) ≠ some (some "b@x") :=
  ⟨rfl, by decide⟩

/-- C1 amended: recordAssignment replaces the state wholesale (requested
organizer, external subset of the batch) only when there is no existing
deserialized state; when a state exists but the merge condition fails
(stored organizer null or empty, or it differs from the requested one, or
the stored attendee count has reached the limit) the stored state is
persisted unchanged and the stored organizer is returned — the previous
attendee set is kept, not discarded. -/
theorem record_replaces_only_when_absent (cfg : Config) (st : CacheState)
    (atts : List String) (req : Option String) (c : Bool) :
    (poolOf st c = none →
      cacheOrganizerAndAttendee cfg st atts req c =
        Except.ok (setPool st c
          (some (RawValue.wellFormed ⟨req, atts.filter isExternalEmail⟩)), req)) ∧
    (∀ d, poolOf st c = some (RawValue.wellFormed d) → mergeGuard cfg d req = false →
      cacheOrganizerAndAttendee cfg st atts req c =
        Except.ok (setPool st c (some (RawValue.wellFormed d)), d.organizer)) := by
  constructor
  · intro hp
    unfold cacheOrganizerAndAttendee
    rw [hp]
    rfl
  · intro d hp hg
    unfold cacheOrganizerAndAttendee
    rw [hp]
    simp [deserializeCacheValue, hg, Bind.bind, Except.bind]

/-- C1 witness: the amended theorem evaluated on the concrete mismatch
input. -/
theorem record_replaces_only_when_absent_witness :
    cacheOrganizerAndAttendee c1Cfg c1State ["e2@z"] (some "b@x") true =
      Except.ok (setPool c1State true
        (some (RawValue.wellFormed ⟨some "a@x", ["e1@y"]⟩)), some "a@x") :=
  (record_replaces_only_when_absent c1Cfg c1State ["e2@z"] (some "b@x") true).2
    ⟨some "a@x", ["e1@y"]⟩ rfl (by decide)

/-! Claim C4. -/

/-- Concrete config for C4: one configured prakerja candidate. -/
def c4Cfg : Config := ⟨["a@x"], [], 2⟩

/-- Concrete cache state for C4: no pool state, and the only candidate was
blocked at timestamp 1000000, so nothing is available at that instant. -/
def c4State : CacheState :=
  ⟨none, none, fun k => if k = "a@x" then some 1000000 else none⟩

/-- C4: at an input where no organizer is usable (no cached current
organizer and the only candidate is inside its 24h block window), the
organizer selection of createEvent completes without signalling any
NoOrganizerAvailable condition and proceeds with a null organizer: the
else branch of the source (line 175) is empty. -/
theorem no_signal_when_none_available :
    availIn c4Cfg 1000000 c4State (some "a@x") = false ∧
    selectOrganizerForCreate c4Cfg 1000000 c4State none true =
      Except.ok (c4State, none) :=
  ⟨rfl, rfl⟩

/-! Claim C7. -/

/-- Concrete config for C7. -/
def c7Cfg : Config := ⟨["a@x"], [], 2⟩

/-- Concrete cache state for C7: the prakerja pool entry holds a byte
string on which JSON.parse throws. -/
def c7State : CacheState := ⟨some RawValue.malformed, none, fun _ => none⟩

/-- C7 counterexample: a malformed pool entry is not treated like an
absent one — the deserialization error propagates out of the read path
(`fetchCurrentOrganizer`) and out of the availability check that calls it,
instead of proceeding with fresh state. -/
theorem malformed_cache_crashes_counterexample :
    fetchCurrentOrganizer c7State true = Except.error () ∧
    isOrganizerAvailable c7Cfg 0 c7State (some "a@x") = Except.error () ∧
    fetchCurrentOrganizer c7State true ≠ Except.ok none :=
  ⟨rfl, rfl, fun h => Except.noConfusion h⟩

/-- C7 amended: an absent cache entry is treated as no state, but
malformed (undeserializable) data makes the bare JSON.parse of
`deserializeCacheValue` throw and the error propagates out of the read
path instead of being treated as absent. -/
theorem malformed_cache_propagates (st : CacheState) (c : Bool) :
    (poolOf st c = none → fetchCurrentOrganizer st c = Except.ok none) ∧
    (poolOf st c = some RawValue.malformed → fetchCurrentOrganizer st c = Except.error ()) := by
  constructor <;> intro h <;> unfold fetchCurrentOrganizer <;> rw [h]

/-- C7 witness: the amended theorem evaluated on a concrete state with an
absent entry in one category and a malformed entry in the other. -/
theorem malformed_cache_propagates_witness :
    fetchCurrentOrganizer c7State false = Except.ok none ∧
    fetchCurrentOrganizer c7State true = Except.error () :=
  ⟨(malformed_cache_propagates c7State false).1 rfl,
   (malformed_cache_propagates c7State true).2 rfl⟩

/-! Claim C10. -/

/-- C10: the quota limit is checked once, before merging, not per added
element: when the stored organizer is truthy and equals the requested one
and the stored count is strictly below the limit, the whole external part
of the batch is merged, so the persisted set is the union of the stored
set and the external batch elements — a single call can therefore push
the size past the limit by up to the batch size (see the witness). -/
theorem limit_checked_before_merge (cfg : Config) (st : CacheState) (atts : List String)
    (c : Bool) (s : String) (stored : List String)
    (hpool : poolOf st c = some (RawValue.wellFormed ⟨some s, stored⟩))
    (hs : s.isEmpty = false)
    (hlen : stored.length < cfg.externalAttendeesLimit) :
    cacheOrganizerAndAttendee cfg st atts (some s) c =
      Except.ok (setPool st c
        (some (RawValue.wellFormed ⟨some s, mergeExternal stored atts⟩)), some s) ∧
    ∀ e, e ∈ mergeExternal stored atts ↔ e ∈ stored ∨ (e ∈ atts ∧ isExternalEmail e = true) := by
  have hg : mergeGuard cfg ⟨some s, stored⟩ (some s) = true := by
    simp [mergeGuard, optTruthy, hs, hlen]
  constructor
  · unfold cacheOrganizerAndAttendee
    rw [hpool]
    simp [deserializeCacheValue, hg, Bind.bind, Except.bind]
  · intro e
    exact mem_mergeExternal_iff

/-- Concrete config for the C10 witness: limit 2. -/
def c10Cfg : Config := ⟨[], [], 2⟩

/-- Concrete cache state for the C10 witness: one stored external
attendee, one below the limit. -/
def c10State : CacheState :=
  ⟨some (RawValue.wellFormed ⟨some "o@x", ["a@x"]⟩), none, fun _ => none⟩

/-- C10 witness: with limit 2 and one stored attendee, a batch of three
new external attendees is merged wholesale and the persisted set reaches
size 4, strictly above the limit. -/
theorem limit_checked_before_merge_witness :
    cacheOrganizerAndAttendee c10Cfg c10State ["b@x", "c@x", "d@x"] (some "o@x") true =
      Except.ok (setPool c10State true (some (RawValue.wellFormed
        ⟨some "o@x", mergeExternal ["a@x"] ["b@x", "c@x", "d@x"]⟩)), some "o@x") ∧
    (mergeExternal ["a@x"] ["b@x", "c@x", "d@x"]).length = 4 ∧
    c10Cfg.externalAttendeesLimit < (mergeExternal ["a@x"] ["b@x", "c@x", "d@x"]).length :=
  ⟨(limit_checked_before_merge c10Cfg c10State ["b@x", "c@x", "d@x"] true "o@x" ["a@x"]
      rfl (by decide) (by decide)).1,
   by decide, by decide⟩

/-! Machinery for the suspend operation. -/

/-- The pool-deletion guard of `blockOrganizer` for one category:
`currentOrganizer && organizer === currentOrganizer` on the organizer
field of the deserialized pool entry. -/
def blockMatches (st : CacheState) (c : Bool) (org : Option String) : Bool :=
  let cur := (parsedPool st c).bind CacheValue.organizer
  optTruthy cur && org == cur

/-- State produced by a successful `blockOrganizer` run (proved equal to
it on well-formed states by `blockOrganizer_ok`). -/
def blockResult (now : Int) (st : CacheState) (org : Option String) : CacheState :=
  let st0 := setBlocked st (orgKey org) now
  if blockMatches st true org then setPool st0 true none
  else if blockMatches st false org then setPool st0 false none
  else st0

theorem parsedPool_setBlocked (st : CacheState) (k : String) (t : Int) (c : Bool) :
    parsedPool (setBlocked st k t) c = parsedPool st c := by
  unfold parsedPool
  rw [poolOf_setBlocked]

theorem blockOrganizer_ok (now : Int) (st : CacheState) (org : Option String)
    (h : poolsWellFormed st) :
    blockOrganizer now st org = Except.ok (blockResult now st org) := by
  have h0 : poolsWellFormed (setBlocked st (orgKey org) now) :=
    ⟨by rw [poolOf_setBlocked]; exact h.1, by rw [poolOf_setBlocked]; exact h.2⟩
  unfold blockOrganizer blockResult blockMatches
  simp only [fetchCurrentOrganizer_ok _ true h0, fetchCurrentOrganizer_ok _ false h0,
    Bind.bind, Except.bind, parsedPool_setBlocked]
  split
  · rfl
  · split
    · rfl
    · rfl

theorem blockResult_blocked_self (now : Int) (st : CacheState) (org : Option String) :
    (blockResult now st org).blocked (orgKey org) = some now := by
  unfold blockResult
  split
  · simp [blocked_setPool, setBlocked]
  · split
    · simp [blocked_setPool, setBlocked]
    · simp [setBlocked]

theorem blockResult_blocked_other (now : Int) (st : CacheState) (org : Option String)
    (k : String) (hk : k ≠ orgKey org) :
    (blockResult now st org).blocked k = st.blocked k := by
  unfold blockResult
  split
  · simp [blocked_setPool, setBlocked, hk]
  · split
    · simp [blocked_setPool, setBlocked, hk]
    · simp [setBlocked, hk]

theorem blockResult_pool_true (now : Int) (st : CacheState) (org : Option String) :
    poolOf (blockResult now st org) true =
      (if blockMatches st true org then none else poolOf st true) := by
  unfold blockResult
  split
  · simp [poolOf_setPool]
  · split
    · simp [poolOf_setPool, poolOf_setBlocked]
    · simp [poolOf_setBlocked]

theorem blockResult_pool_false (now : Int) (st : CacheState) (org : Option String) :
    poolOf (blockResult now st org) false =
      (if blockMatches st true org then poolOf st false
       else if blockMatches st false org then none else poolOf st false) := by
  unfold blockResult
  split
  · simp [poolOf_setPool, poolOf_setBlocked]
  · split
    · simp [poolOf_setPool]
    · simp [poolOf_setBlocked]

theorem blockMatches_extract (st : CacheState) (c : Bool) (org : Option String)
    (h : blockMatches st c org = true) :
    ∃ v s, poolOf st c = some (RawValue.wellFormed v) ∧ v.organizer = some s ∧
      org = some s := by
  unfold blockMatches at h
  rw [Bool.and_eq_true] at h
  obtain ⟨ht, he⟩ := h
  cases hp : parsedPool st c with
  | none =>
    rw [hp] at ht
    cases ht
  | some v =>
    rw [hp] at ht he
    cases ho : v.organizer with
    | none =>
      rw [show (some v).bind CacheValue.organizer = v.organizer from rfl, ho] at ht
      cases ht
    | some s =>
      rw [show (some v).bind CacheValue.organizer = v.organizer from rfl, ho] at he
      refine ⟨v, s, ?_, ho, beq_iff_eq.mp he⟩
      unfold parsedPool parsedRaw at hp
      cases hraw : poolOf st c with
      | none =>
        rw [hraw] at hp
        cases hp
      | some raw =>
        cases raw with
        | wellFormed w =>
          rw [hraw] at hp
          injection hp with hw
          rw [hw]
        | malformed =>
          rw [hraw] at hp
          cases hp

/-! Claim C5. -/

/-- Concrete cache state for C5: the same organizer o@x is the current
organizer of both categories. -/
def c5State : CacheState :=
  ⟨some (RawValue.wellFormed ⟨some "o@x", []⟩),
   some (RawValue.wellFormed ⟨some "o@x", []⟩), fun _ => none⟩

/-- C5 counterexample: suspending an organizer that is current in both
categories deletes only the prakerja pool entry; the non-prakerja entry
survives, contradicting the claim that every matching category is
deleted. -/
theorem suspend_deletes_only_first_counterexample :
    (blockOrganizer 5 c5State (some "o@x")).toOption.map
        (fun s => (poolOf s true, poolOf s false)) =
      some (none, some (RawValue.wellFormed ⟨some "o@x", []⟩)) ∧
    (blockOrganizer 5 c5State (some "o@x")).toOption.map (fun s => poolOf s false) ≠
      some none :=
  ⟨rfl, by decide⟩

/-- C5 amended: suspend writes the block entry and then deletes at most
one pool entry, the first matching one in the fixed order prakerja then
non-prakerja: the prakerja pool is deleted exactly when its current
organizer is the suspended one, and the non-prakerja pool is deleted only
when the prakerja one did not match and the non-prakerja one does (the
source uses else-if). -/
theorem suspend_deletes_first_matching_pool (now : Int) (st : CacheState)
    (org : Option String) (hwf : poolsWellFormed st) :
    ∃ st', blockOrganizer now st org = Except.ok st' ∧
      st'.blocked (orgKey org) = some now ∧
      poolOf st' true = (if blockMatches st true org then none else poolOf st true) ∧
      poolOf st' false =
        (if blockMatches st true org then poolOf st false
         else if blockMatches st false org then none else poolOf st false) :=
  ⟨blockResult now st org, blockOrganizer_ok now st org hwf,
   blockResult_blocked_self now st org,
   blockResult_pool_true now st org, blockResult_pool_false now st org⟩

/-- C5 witness: the amended theorem evaluated on the concrete
both-categories state; only the prakerja entry is deleted. -/
theorem suspend_deletes_first_matching_pool_witness :
    ∃ st', blockOrganizer 5 c5State (some "o@x") = Except.ok st' ∧
      st'.blocked "o@x" = some 5 ∧
      poolOf st' true = none ∧
      poolOf st' false = some (RawValue.wellFormed ⟨some "o@x", []⟩) := by
  obtain ⟨st', h1, h2, h3, h4⟩ :=
    suspend_deletes_first_matching_pool 5 c5State (some "o@x") (by decide)
  exact ⟨st', h1, h2, by rw [h3]; decide, by rw [h4]; decide⟩

/-! Claim C2. -/

/-- Concrete config for C2: limit 2. -/
def c2Cfg : Config := ⟨[], [], 2⟩

/-- Concrete cache state for the C2 counterexample: o@x is current in both
categories and at the limit in both. -/
def c2State : CacheState :=
  ⟨some (RawValue.wellFormed ⟨some "o@x", ["e1@z", "e2@z"]⟩),
   some (RawValue.wellFormed ⟨some "o@x", ["e1@z", "e2@z"]⟩), fun _ => none⟩

/-- C2 counterexample: when the organizer is quota-exhausted in BOTH
categories, both negated conditions inside the source if-block are false,
so blockOrganizer is never called: isOrganizerAvailable returns false but
no SuspensionRecord exists afterwards (the state is returned unchanged),
contradicting the claim that a SuspensionRecord exists as a side effect. -/
theorem both_exhausted_no_record_counterexample :
    isOrganizerAvailable c2Cfg 77 c2State (some "o@x") = Except.ok (c2State, false) ∧
    c2State.blocked "o@x" = none :=
  ⟨rfl, rfl⟩

/-- C2 amended: if the organizer is quota-exhausted in at least one
category, isOrganizerAvailable returns false, and suspend is triggered
once for each category that was NOT itself confirmed exhausted — so a
SuspensionRecord is written exactly when the two categories disagree;
when both are exhausted no suspension is written and the state is
unchanged. -/
theorem quota_breach_blocks (cfg : Config) (now : Int) (st : CacheState)
    (org : Option String) (hwf : poolsWellFormed st)
    (hex : (quotaExhausted cfg st true org || quotaExhausted cfg st false org) = true) :
    ∃ st', isOrganizerAvailable cfg now st org = Except.ok (st', false) ∧
      (quotaExhausted cfg st true org ≠ quotaExhausted cfg st false org →
        st'.blocked (orgKey org) = some now) ∧
      (quotaExhausted cfg st true org = true → quotaExhausted cfg st false org = true →
        st' = st) := by
  unfold isOrganizerAvailable
  simp only [fetchCurrentOrganizer_ok st true hwf, fetchCurrentOrganizer_ok st false hwf,
    Bind.bind, Except.bind]
  cases hP : quotaExhausted cfg st true org <;> cases hQ : quotaExhausted cfg st false org
  · rw [hP, hQ] at hex
    cases hex
  · refine ⟨blockResult now st org, ?_,
      fun _ => blockResult_blocked_self now st org, ?_⟩
    · rw [show shouldBlockCur cfg (parsedPool st true) org = false from hP,
        show shouldBlockCur cfg (parsedPool st false) org = true from hQ,
        blockOrganizer_ok now st org hwf]
      simp [Except.bind]
    · intro h _
      cases h
  · refine ⟨blockResult now st org, ?_,
      fun _ => blockResult_blocked_self now st org, ?_⟩
    · rw [show shouldBlockCur cfg (parsedPool st true) org = true from hP,
        show shouldBlockCur cfg (parsedPool st false) org = false from hQ,
        blockOrganizer_ok now st org hwf]
      simp [Except.bind]
    · intro _ h
      cases h
  · refine ⟨st, ?_, ?_, fun _ _ => rfl⟩
    · rw [show shouldBlockCur cfg (parsedPool st true) org = true from hP,
        show shouldBlockCur cfg (parsedPool st false) org = true from hQ]
      simp [Except.bind]
    · intro h
      exact absurd rfl h

/-- Concrete cache state for the C2 witness: o@x is at the limit in the
prakerja category only. -/
def c2WState : CacheState :=
  ⟨some (RawValue.wellFormed ⟨some "o@x", ["e1@z", "e2@z"]⟩), none, fun _ => none⟩

/-- C2 witness: the amended theorem evaluated where exactly one category
is exhausted; availability is false and the block entry is written. -/
theorem quota_breach_blocks_witness :
    ∃ st', isOrganizerAvailable c2Cfg 9 c2WState (some "o@x") = Except.ok (st', false) ∧
      st'.blocked "o@x" = some 9 := by
  obtain ⟨st', h1, h2, _⟩ :=
    quota_breach_blocks c2Cfg 9 c2WState (some "o@x") (by decide) (by decide)
  exact ⟨st', h1, h2 (by decide)⟩

/-! Claim C3. -/

/-- C3: when the organizer is not quota-exhausted in either category and a
block entry with timestamp t exists, availability is decided purely from
the stored timestamp (the model keeps every entry until explicitly
deleted, so a state in which the TTL of the store never fired is covered):
strictly more than 24 hours elapsed means the entry is deleted by hand and
true is returned, otherwise false is returned with the state unchanged. -/
theorem suspension_lift_from_timestamp (cfg : Config) (now t : Int) (st : CacheState)
    (org : String) (hwf : poolsWellFormed st)
    (h1 : quotaExhausted cfg st true (some org) = false)
    (h2 : quotaExhausted cfg st false (some org) = false)
    (hb : st.blocked org = some t) :
    (now - t > 24 * 60 * 60 * 1000 →
      isOrganizerAvailable cfg now st (some org) =
        Except.ok (deleteBlocked st org, true)) ∧
    (now - t ≤ 24 * 60 * 60 * 1000 →
      isOrganizerAvailable cfg now st (some org) = Except.ok (st, false)) := by
  unfold isOrganizerAvailable
  simp only [fetchCurrentOrganizer_ok st true hwf, fetchCurrentOrganizer_ok st false hwf,
    Bind.bind, Except.bind]
  rw [show shouldBlockCur cfg (parsedPool st true) (some org) = false from h1,
    show shouldBlockCur cfg (parsedPool st false) (some org) = false from h2]
  simp only [orgKey]
  rw [hb]
  constructor <;> intro h
  · simp [isBlockedTimeFinished]
    omega
  · simp [isBlockedTimeFinished]
    omega

/-- Concrete config for the C3 witness. -/
def c3Cfg : Config := ⟨[], [], 2⟩

/-- Concrete cache state for the C3 witness: no pool state, o@x blocked at
timestamp 100. -/
def c3State : CacheState := ⟨none, none, fun k => if k = "o@x" then some 100 else none⟩

/-- C3 witness: one millisecond past the 24-hour window the entry is
deleted and true returned; at exactly the boundary false is returned. -/
theorem suspension_lift_from_timestamp_witness :
    isOrganizerAvailable c3Cfg 86400101 c3State (some "o@x") =
      Except.ok (deleteBlocked c3State "o@x", true) ∧
    isOrganizerAvailable c3Cfg 86400100 c3State (some "o@x") =
      Except.ok (c3State, false) :=
  ⟨(suspension_lift_from_timestamp c3Cfg 86400101 100 c3State "o@x"
      (by decide) rfl rfl (by decide)).1 (by decide),
   (suspension_lift_from_timestamp c3Cfg 86400100 100 c3State "o@x"
      (by decide) rfl rfl (by decide)).2 (by decide)⟩

/-! Substring lemmas for the domain classification. -/

theorem isPrefixOf_self_append (l q : List Char) : l.isPrefixOf (l ++ q) = true :=
  List.isPrefixOf_iff_prefix.mpr (List.prefix_append l q)

theorem hasSubstr_here (pat q : List Char) : hasSubstr pat (pat ++ q) = true := by
  cases pat with
  | nil =>
    cases q with
    | nil => rfl
    | cons a t =>
      unfold hasSubstr
      rw [List.nil_append]
      simp [List.isPrefixOf]
  | cons b bt =>
    show ((b :: bt).isPrefixOf ((b :: bt) ++ q) || hasSubstr (b :: bt) (bt ++ q)) = true
    rw [isPrefixOf_self_append]
    rfl

theorem hasSubstr_cons (pat : List Char) (a : Char) (t : List Char)
    (h : hasSubstr pat t = true) : hasSubstr pat (a :: t) = true := by
  unfold hasSubstr
  rw [h, Bool.or_true]

theorem hasSubstr_append (pat : List Char) :
    ∀ (p q : List Char), hasSubstr pat (p ++ (pat ++ q)) = true
  | [], q => hasSubstr_here pat q
  | a :: p', q => by
    rw [List.cons_append]
    exact hasSubstr_cons pat a _ (hasSubstr_append pat p' q)

/-- An email whose real domain part is `dom` (it ends in the character `@`
followed by `dom`) necessarily contains `dom` as a substring, so the
source classifies it as internal. -/
theorem emailHasDomain_substr {e dom : String} (h : emailHasDomain e dom = true) :
    hasSubstr dom.data e.data = true := by
  obtain ⟨p, hp⟩ := List.isSuffixOf_iff_suffix.mp h
  have he : e.data = p ++ ['@'] ++ (dom.data ++ []) := by
    rw [← hp]
    simp
  rw [he]
  exact hasSubstr_append dom.data (p ++ ['@']) []

/-! Invariant machinery for recordAssignment. -/

/-- Case analysis of a successful `cacheOrganizerAndAttendee` run: either
no state existed and the fresh branch stored the requested organizer with
the filtered batch, or a value `d` existed and the persisted list is the
merge exactly under `mergeGuard`. -/
theorem record_cases (cfg : Config) (st : CacheState) (atts : List String)
    (req : Option String) (c : Bool) (st' : CacheState) (r : Option String)
    (h : cacheOrganizerAndAttendee cfg st atts req c = Except.ok (st', r)) :
    (poolOf st c = none ∧ r = req ∧
      st' = setPool st c (some (RawValue.wellFormed ⟨req, atts.filter isExternalEmail⟩))) ∨
    (∃ d, poolOf st c = some (RawValue.wellFormed d) ∧ r = d.organizer ∧
      st' = setPool st c (some (RawValue.wellFormed
        ⟨d.organizer,
         if mergeGuard cfg d req then mergeExternal d.uniqueAttendees atts
         else d.uniqueAttendees⟩))) := by
  unfold cacheOrganizerAndAttendee at h
  cases hp : poolOf st c with
  | none =>
    rw [hp] at h
    simp only [deserializeCacheValue, Bind.bind, Except.bind, Except.ok.injEq,
      Prod.mk.injEq] at h
    exact Or.inl ⟨rfl, h.2.symm, h.1.symm⟩
  | some raw =>
    cases raw with
    | malformed =>
      rw [hp] at h
      simp only [deserializeCacheValue, Bind.bind, Except.bind] at h
      exact Except.noConfusion h
    | wellFormed d =>
      rw [hp] at h
      simp only [deserializeCacheValue, Bind.bind, Except.bind, Except.ok.injEq,
        Prod.mk.injEq] at h
      exact Or.inr ⟨d, rfl, h.2.symm, h.1.symm⟩

/-- Every attendee email stored in a pool entry passed the external
filter. -/
def stInvExternal (st : CacheState) : Prop :=
  ∀ c v, poolOf st c = some (RawValue.wellFormed v) →
    ∀ e ∈ v.uniqueAttendees, isExternalEmail e = true

theorem record_preserves_external (cfg : Config) (st : CacheState) (atts : List String)
    (req : Option String) (c : Bool) (st' : CacheState) (r : Option String)
    (h : cacheOrganizerAndAttendee cfg st atts req c = Except.ok (st', r))
    (hinv : stInvExternal st) : stInvExternal st' := by
  rcases record_cases cfg st atts req c st' r h with ⟨hp, -, hst⟩ | ⟨d, hp, -, hst⟩
  · subst hst
    intro c' v hv e he
    rw [poolOf_setPool] at hv
    by_cases hc : c' = c
    · rw [if_pos hc] at hv
      simp only [Option.some.injEq, RawValue.wellFormed.injEq] at hv
      subst hv
      exact (List.mem_filter.mp he).2
    · rw [if_neg hc] at hv
      exact hinv c' v hv e he
  · subst hst
    intro c' v hv e he
    rw [poolOf_setPool] at hv
    by_cases hc : c' = c
    · rw [if_pos hc] at hv
      simp only [Option.some.injEq, RawValue.wellFormed.injEq] at hv
      subst hv
      have hdmem := hinv c d hp
      split at he
      · rcases mem_mergeExternal_iff.mp he with hm | ⟨-, hx⟩
        · exact hdmem e hm
        · exact hx
      · exact hdmem e he
    · rw [if_neg hc] at hv
      exact hinv c' v hv e he

theorem runAll_preserves_external (cfg : Config) :
    ∀ (calls : List (List String × Option String × Bool)) (st st' : CacheState),
      runAll cfg st calls = Except.ok st' → stInvExternal st → stInvExternal st'
  | [], st, st', h, hinv => by
    unfold runAll at h
    injection h with h
    rw [← h]
    exact hinv
  | (atts, req, c) :: rest, st, st', h, hinv => by
    unfold runAll at h
    cases hcall : cacheOrganizerAndAttendee cfg st atts req c with
    | error err =>
      rw [hcall] at h
      simp only [Bind.bind, Except.bind] at h
      exact Except.noConfusion h
    | ok pr =>
      obtain ⟨st1, r⟩ := pr
      rw [hcall] at h
      simp only [Bind.bind, Except.bind] at h
      exact runAll_preserves_external cfg rest st1 st' h
        (record_preserves_external cfg st atts req c st1 r hcall hinv)

/-! Claim C8. -/

/-- C8: starting from an empty cache, after any sequence of
recordAssignment calls, no pool entry of any category contains an email
whose real domain part is the organization domain: such an email contains
the domain as a substring, so both the merge branch and the fresh branch
filter it out. -/
theorem internal_domain_never_stored (cfg : Config)
    (calls : List (List String × Option String × Bool)) (st' : CacheState)
    (c : Bool) (v : CacheValue) (e : String)
    (hrun : runAll cfg emptyState calls = Except.ok st')
    (hdom : emailHasDomain e rskDomain = true)
    (hpool : poolOf st' c = some (RawValue.wellFormed v)) :
    e ∉ v.uniqueAttendees := by
  have hinv0 : stInvExternal emptyState := by
    intro c' v' hv'
    cases c' <;> simp [emptyState, poolOf] at hv'
  have hinv := runAll_preserves_external cfg calls emptyState st' hrun hinv0
  intro hmem
  have hext := hinv c v hpool e hmem
  rw [isExternalEmail, emailHasDomain_substr hdom] at hext
  cases hext

/-- Concrete config for the C8 witness. -/
def c8Cfg : Config := ⟨[], [], 2000⟩

/-- The call sequence of the C8 witness: one recordAssignment with an
internal-domain and an external attendee. -/
def c8Calls : List (List String × Option String × Bool) :=
  [(["x@sempurna.com", "y@ext.com"], some "o@x", true)]

/-- The state that run produces. -/
def c8Final : CacheState :=
  setPool emptyState true (some (RawValue.wellFormed
    ⟨some "o@x", List.filter isExternalEmail ["x@sempurna.com", "y@ext.com"]⟩))

/-- C8 witness: after recording a batch containing the internal address
x@sempurna.com, that address is not in the persisted attendee set. -/
theorem internal_domain_never_stored_witness :
    emailHasDomain "x@sempurna.com" rskDomain = true ∧
    "x@sempurna.com" ∉
      (List.filter isExternalEmail ["x@sempurna.com", "y@ext.com"]) :=
  ⟨by decide,
   internal_domain_never_stored c8Cfg c8Calls c8Final true
     ⟨some "o@x", List.filter isExternalEmail ["x@sempurna.com", "y@ext.com"]⟩
     "x@sempurna.com" rfl (by decide) (by decide)⟩

/-! Claim C9. -/

/-- C9: classification is substring containment, not domain matching: any
email that contains the organization domain as a substring anywhere is
classified internal and never newly added to a persisted attendee set by
recordAssignment (if it appears in a persisted set afterwards it was
already stored before), regardless of its real domain part. -/
theorem substring_classification_excludes (cfg : Config) (st : CacheState)
    (atts : List String) (req : Option String) (c : Bool) (e : String)
    (st' : CacheState) (r : Option String)
    (hsub : hasSubstr rskDomain.data e.data = true)
    (hcall : cacheOrganizerAndAttendee cfg st atts req c = Except.ok (st', r)) :
    ∀ c' v, poolOf st' c' = some (RawValue.wellFormed v) → e ∈ v.uniqueAttendees →
      ∃ v₀, poolOf st c' = some (RawValue.wellFormed v₀) ∧ e ∈ v₀.uniqueAttendees := by
  have hnotext : isExternalEmail e = false := by
    rw [isExternalEmail, hsub]
    rfl
  intro c' v hv he
  rcases record_cases cfg st atts req c st' r hcall with ⟨hp, -, hst⟩ | ⟨d, hp, -, hst⟩
  · subst hst
    rw [poolOf_setPool] at hv
    by_cases hc : c' = c
    · rw [if_pos hc] at hv
      simp only [Option.some.injEq, RawValue.wellFormed.injEq] at hv
      subst hv
      have := (List.mem_filter.mp he).2
      rw [hnotext] at this
      cases this
    · rw [if_neg hc] at hv
      exact ⟨v, hv, he⟩
  · subst hst
    rw [poolOf_setPool] at hv
    by_cases hc : c' = c
    · rw [if_pos hc] at hv
      simp only [Option.some.injEq, RawValue.wellFormed.injEq] at hv
      subst hv
      subst hc
      split at he
      · rcases mem_mergeExternal_iff.mp he with hm | ⟨-, hx⟩
        · exact ⟨d, hp, hm⟩
        · rw [hnotext] at hx
          cases hx
      · exact ⟨d, hp, he⟩
    · rw [if_neg hc] at hv
      exact ⟨v, hv, he⟩

/-- Concrete config for the C9 witness. -/
def c9Cfg : Config := ⟨[], [], 2000⟩

/-- The state the C9 witness call produces: the batch held only
sempurna.com@evil.org, which is excluded although its real domain is
evil.org. -/
def c9Final : CacheState :=
  setPool emptyState true (some (RawValue.wellFormed
    ⟨some "o@x", List.filter isExternalEmail ["sempurna.com@evil.org"]⟩))

/-- C9 witness: sempurna.com@evil.org contains the organization domain in
its local part (its real domain is evil.org, external), yet the call
classifies it internal: the persisted set is empty, and the theorem
applies to it. -/
theorem substring_classification_excludes_witness :
    hasSubstr rskDomain.data "sempurna.com@evil.org".data = true ∧
    emailHasDomain "sempurna.com@evil.org" rskDomain = false ∧
    List.filter isExternalEmail ["sempurna.com@evil.org"] = [] ∧
    (poolOf c9Final true = some (RawValue.wellFormed
        ⟨some "o@x", List.filter isExternalEmail ["sempurna.com@evil.org"]⟩) →
      "sempurna.com@evil.org" ∈
        (List.filter isExternalEmail ["sempurna.com@evil.org"]) →
      ∃ v₀, poolOf emptyState true = some (RawValue.wellFormed v₀) ∧
        "sempurna.com@evil.org" ∈ v₀.uniqueAttendees) :=
  ⟨by decide, by decide, by decide,
   fun hv he => substring_classification_excludes c9Cfg emptyState
     ["sempurna.com@evil.org"] (some "o@x") true "sempurna.com@evil.org"
     c9Final (some "o@x") (by decide) rfl true
     ⟨some "o@x", List.filter isExternalEmail ["sempurna.com@evil.org"]⟩ hv he⟩

/-! Machinery for the availability loop (claim C6). -/

/-- The boolean `isOrganizerAvailable` decides, as a pure function of the
state it starts from. -/
def availDecision (cfg : Config) (now : Int) (st : CacheState) (org : Option String) : Bool :=
  if quotaExhausted cfg st true org || quotaExhausted cfg st false org then false
  else
    match st.blocked (orgKey org) with
    | some t => isBlockedTimeFinished now t
    | none => true

/-- How one `isOrganizerAvailable` run may change the state: block entries
of other organizers are untouched, and a pool entry is either untouched or
deleted, the latter only when its current organizer is the checked one. -/
def updSpec (st st' : CacheState) (org : Option String) : Prop :=
  (∀ k, k ≠ orgKey org → st'.blocked k = st.blocked k) ∧
  (∀ c, poolOf st' c = poolOf st c ∨
    (poolOf st' c = none ∧ ∃ v s, poolOf st c = some (RawValue.wellFormed v) ∧
      v.organizer = some s ∧ org = some s))

theorem updSpec_refl (st : CacheState) (org : Option String) : updSpec st st org :=
  ⟨fun _ _ => rfl, fun _ => Or.inl rfl⟩

theorem blockResult_updSpec (now : Int) (st : CacheState) (org : Option String) :
    updSpec st (blockResult now st org) org := by
  constructor
  · intro k hk
    exact blockResult_blocked_other now st org k hk
  · intro c
    cases c
    · rw [blockResult_pool_false]
      split
      · exact Or.inl rfl
      · split
        · rename_i h1 h2
          exact Or.inr ⟨rfl, blockMatches_extract st false org h2⟩
        · exact Or.inl rfl
    · rw [blockResult_pool_true]
      split
      · rename_i h1
        exact Or.inr ⟨rfl, blockMatches_extract st true org h1⟩
      · exact Or.inl rfl

theorem blockResult_wf (now : Int) (st : CacheState) (org : Option String)
    (h : poolsWellFormed st) : poolsWellFormed (blockResult now st org) := by
  constructor
  · rw [blockResult_pool_true]
    split
    · simp
    · exact h.1
  · rw [blockResult_pool_false]
    split
    · exact h.2
    · split
      · simp
      · exact h.2

theorem deleteBlocked_wf (st : CacheState) (k : String) (h : poolsWellFormed st) :
    poolsWellFormed (deleteBlocked st k) :=
  ⟨by rw [poolOf_deleteBlocked]; exact h.1, by rw [poolOf_deleteBlocked]; exact h.2⟩

theorem deleteBlocked_updSpec (st : CacheState) (org : Option String) :
    updSpec st (deleteBlocked st (orgKey org)) org := by
  constructor
  · intro k hk
    simp [deleteBlocked, hk]
  · intro c
    rw [poolOf_deleteBlocked]
    exact Or.inl rfl

/-- A run of `isOrganizerAvailable` from a well-formed state succeeds,
returns the pure decision, keeps the state well formed and only performs
the updates of `updSpec`. -/
theorem isOrganizerAvailable_run (cfg : Config) (now : Int) (st : CacheState)
    (org : Option String) (hwf : poolsWellFormed st) :
    ∃ st', isOrganizerAvailable cfg now st org =
        Except.ok (st', availDecision cfg now st org) ∧
      poolsWellFormed st' ∧ updSpec st st' org := by
  unfold isOrganizerAvailable
  simp only [fetchCurrentOrganizer_ok st true hwf, fetchCurrentOrganizer_ok st false hwf,
    Bind.bind, Except.bind]
  cases hP : quotaExhausted cfg st true org <;> cases hQ : quotaExhausted cfg st false org
  · rw [show shouldBlockCur cfg (parsedPool st true) org = false from hP,
      show shouldBlockCur cfg (parsedPool st false) org = false from hQ]
    cases hbl : st.blocked (orgKey org) with
    | some t =>
      cases hf : isBlockedTimeFinished now t with
      | true =>
        have hd : availDecision cfg now st org = true := by
          unfold availDecision
          rw [hP, hQ, hbl]
          exact hf
        refine ⟨deleteBlocked st (orgKey org), ?_, deleteBlocked_wf st (orgKey org) hwf,
          deleteBlocked_updSpec st org⟩
        rw [hd]
        simp [hf]
      | false =>
        have hd : availDecision cfg now st org = false := by
          unfold availDecision
          rw [hP, hQ, hbl]
          exact hf
        refine ⟨st, ?_, hwf, updSpec_refl st org⟩
        rw [hd]
        simp [hf]
    | none =>
      have hd : availDecision cfg now st org = true := by
        unfold availDecision
        rw [hP, hQ, hbl]
        rfl
      refine ⟨st, ?_, hwf, updSpec_refl st org⟩
      rw [hd]
      simp
  · have hd : availDecision cfg now st org = false := by
      unfold availDecision
      rw [hP, hQ]
      rfl
    rw [show shouldBlockCur cfg (parsedPool st true) org = false from hP,
      show shouldBlockCur cfg (parsedPool st false) org = true from hQ,
      blockOrganizer_ok now st org hwf, hd]
    refine ⟨blockResult now st org, ?_, blockResult_wf now st org hwf,
      blockResult_updSpec now st org⟩
    simp [Except.bind]
  · have hd : availDecision cfg now st org = false := by
      unfold availDecision
      rw [hP, hQ]
      rfl
    rw [show shouldBlockCur cfg (parsedPool st true) org = true from hP,
      show shouldBlockCur cfg (parsedPool st false) org = false from hQ,
      blockOrganizer_ok now st org hwf, hd]
    refine ⟨blockResult now st org, ?_, blockResult_wf now st org hwf,
      blockResult_updSpec now st org⟩
    simp [Except.bind]
  · have hd : availDecision cfg now st org = false := by
      unfold availDecision
      rw [hP, hQ]
      rfl
    rw [show shouldBlockCur cfg (parsedPool st true) org = true from hP,
      show shouldBlockCur cfg (parsedPool st false) org = true from hQ, hd]
    exact ⟨st, by simp, hwf, updSpec_refl st org⟩

theorem availIn_eq (cfg : Config) (now : Int) (st : CacheState) (org : Option String)
    (hwf : poolsWellFormed st) :
    availIn cfg now st org = availDecision cfg now st org := by
  obtain ⟨st', hrun, -, -⟩ := isOrganizerAvailable_run cfg now st org hwf
  unfold availIn
  rw [hrun]

/-- Checking one organizer never changes the availability decision of a
different organizer. -/
theorem availDecision_stable (cfg : Config) (now : Int) (st st' : CacheState)
    (o o' : String) (hu : updSpec st st' (some o)) (ho : o' ≠ o) :
    availDecision cfg now st' (some o') = availDecision cfg now st (some o') := by
  have hb : st'.blocked (orgKey (some o')) = st.blocked (orgKey (some o')) :=
    hu.1 (orgKey (some o')) (by simpa [orgKey] using ho)
  have hq : ∀ c, quotaExhausted cfg st' c (some o') = quotaExhausted cfg st c (some o') := by
    intro c
    rcases hu.2 c with he | ⟨hn, v, s, hp, hv, hs⟩
    · unfold quotaExhausted parsedPool
      rw [he]
    · injection hs with hs
      have hne : ((some s : Option String) == some o') = false := by
        rw [beq_eq_false_iff_ne]
        intro hcon
        injection hcon with hcon
        exact ho (hcon.symm.trans hs.symm)
      have hl : quotaExhausted cfg st' c (some o') = false := by
        unfold quotaExhausted parsedPool
        rw [hn]
        rfl
      have hr : quotaExhausted cfg st c (some o') = false := by
        unfold quotaExhausted parsedPool
        rw [hp]
        show (v.organizer == some o'
          && decide (cfg.externalAttendeesLimit ≤ v.uniqueAttendees.length)) = false
        rw [hv, hne]
        rfl
      rw [hl, hr]
  unfold availDecision
  rw [hb, hq true, hq false]

theorem find?_congr_on (p q : String → Bool) :
    ∀ l : List String, (∀ x ∈ l, p x = q x) → l.find? p = l.find? q
  | [], _ => rfl
  | a :: t, h => by
    have ha := h a (List.mem_cons_self a t)
    cases hp : p a with
    | true =>
      rw [List.find?_cons_of_pos t hp, List.find?_cons_of_pos t (ha ▸ hp)]
    | false =>
      have hp' : ¬ p a = true := by
        rw [hp]
        exact Bool.false_ne_true
      have hq' : ¬ q a = true := by
        rw [← ha, hp]
        exact Bool.false_ne_true
      rw [List.find?_cons_of_neg t hp', List.find?_cons_of_neg t hq']
      exact find?_congr_on p q t (fun x hx => h x (List.mem_cons_of_mem a hx))

/-- The availability loop on a duplicate-free candidate list returns, as
the head of its collected list, exactly the first candidate whose
availability decision in the STARTING state is true: checking earlier
candidates never changes the decision of later (distinct) ones. -/
theorem availLoop_spec (cfg : Config) (now : Int) :
    ∀ (orgs : List String) (st : CacheState), poolsWellFormed st → orgs.Nodup →
      ∃ st' l, availLoop cfg now st orgs = Except.ok (st', l) ∧
        l.head? = orgs.find? (fun o => availIn cfg now st (some o))
  | [], st, hwf, hnd => ⟨st, [], rfl, rfl⟩
  | o :: rest, st, hwf, hnd => by
    obtain ⟨honotin, hnd'⟩ := List.nodup_cons.mp hnd
    obtain ⟨st1, hrun, hwf1, hupd⟩ := isOrganizerAvailable_run cfg now st (some o) hwf
    obtain ⟨st2, l, hloop, hhead⟩ := availLoop_spec cfg now rest st1 hwf1 hnd'
    have hstep : ∀ x ∈ rest, availIn cfg now st1 (some x) = availIn cfg now st (some x) := by
      intro x hx
      have hxo : x ≠ o := fun hcon => honotin (hcon ▸ hx)
      rw [availIn_eq cfg now st1 (some x) hwf1, availIn_eq cfg now st (some x) hwf,
        availDecision_stable cfg now st st1 o x hupd hxo]
    refine ⟨st2, if availDecision cfg now st (some o) then o :: l else l, ?_, ?_⟩
    · unfold availLoop
      rw [hrun]
      simp only [Bind.bind, Except.bind]
      rw [hloop]
    · cases hda : availDecision cfg now st (some o) with
      | true =>
        have hao : availIn cfg now st (some o) = true := by
          rw [availIn_eq cfg now st (some o) hwf, hda]
        rw [List.find?_cons_of_pos rest hao]
        rfl
      | false =>
        have hao : ¬ availIn cfg now st (some o) = true := by
          rw [availIn_eq cfg now st (some o) hwf, hda]
          exact Bool.false_ne_true
        rw [List.find?_cons_of_neg rest hao]
        show l.head? = rest.find? (fun o => availIn cfg now st (some o))
        rw [hhead]
        exact find?_congr_on _ _ rest hstep

/-! Claim C6. -/

/-- C6: when selection falls back to the configured candidate list of a
category (whose entries are pairwise distinct), the head of the collected
available-organizer list — which is what createEvent picks as
organizers[0] — is exactly the first candidate in declared order whose
isOrganizerAvailable decision (in the state the loop starts from) is
true; no other ranking is applied. -/
theorem selection_first_available (cfg : Config) (now : Int) (st : CacheState) (c : Bool)
    (hwf : poolsWellFormed st) (hnd : (candidatesFor cfg c).Nodup) :
    ∃ st' l, fetchAvailableOrganizers cfg now st c none = Except.ok (st', l) ∧
      l.head? = (candidatesFor cfg c).find? (fun o => availIn cfg now st (some o)) := by
  unfold fetchAvailableOrganizers
  exact availLoop_spec cfg now (candidatesFor cfg c) st hwf hnd

/-- Concrete config for the C6 witness: candidates a@x, b@x, c@x. -/
def c6Cfg : Config := ⟨["a@x", "b@x", "c@x"], [], 2⟩

/-- Concrete state for the C6 witness: a@x and b@x are inside their block
window at the current instant 60, c@x is free. -/
def c6State : CacheState :=
  ⟨none, none, fun k => if k = "a@x" ∨ k = "b@x" then some 50 else none⟩

/-- C6 witness: with only c@x available, the loop returns c@x first, and
the first-available candidate is c@x. -/
theorem selection_first_available_witness :
    (∃ st' l, fetchAvailableOrganizers c6Cfg 60 c6State true none = Except.ok (st', l) ∧
      l.head? = (candidatesFor c6Cfg true).find?
        (fun o => availIn c6Cfg 60 c6State (some o))) ∧
    (candidatesFor c6Cfg true).find? (fun o => availIn c6Cfg 60 c6State (some o)) =
      some "c@x" :=
  ⟨selection_first_available c6Cfg 60 c6State true (by decide) (by decide), by decide⟩
